import Mathlib

/-!
# Verification of `rrdf_sync.py` (UNITY-Physics/hyperwheel)

A shallow embedding of the decision logic of `config/usr_share_orthanc/rrdf_sync.py`:

* `parse_rrdf_timestamps`  — builds the raw-file time index from `.h5` filenames;
* `relocate_rrdf_files_by_time` — nearest-timestamp matching and relocation;
* `rename_calipr_dicom_files` — CALIPR two-file disambiguation;
* `find_dicom_session_path` / `deriveSessionName` — session-directory resolution;
* `get_latest_exam_folder` — remote listing parsing and most-recent selection.

External I/O collaborators (pydicom reads, the filesystem, SSH) are passed in as
explicit data: directory listings become `List String`, metadata reads become
`String → Option _` oracles, and timestamps read from DICOM metadata become
abstract integers (microseconds), matching `datetime`/`timedelta` resolution.
Python exceptions that escape a function are modelled with `Except String`.
-/

set_option autoImplicit false

namespace RrdfSync

/-! ## Character and string utilities -/

/-- Value of a list of decimal digit characters, most significant first. -/
def digitsToNat (cs : List Char) : Nat :=
  cs.foldl (fun a c => a * 10 + (c.toNat - '0'.toNat)) 0

/-- Take exactly `n` decimal digits from the front of `cs`; fail otherwise.
Models a `\d{n}` group of a Python regular expression. -/
def takeDigits : Nat → List Char → Option (List Char × List Char)
  | 0, cs => some ([], cs)
  | _ + 1, [] => none
  | n + 1, c :: cs =>
    if c.isDigit then
      match takeDigits n cs with
      | some (ds, rest) => some (c :: ds, rest)
      | none => none
    else none

/-- Strip the literal `lit` from the front of `cs`; fail if it is not there.
Models a literal fragment of a Python regular expression. -/
def dropLit : List Char → List Char → Option (List Char)
  | [], cs => some cs
  | _ :: _, [] => none
  | l :: ls, c :: cs => if c = l then dropLit ls cs else none

/-- Python's substring test `needle in hay`. -/
def hasSub (needle : List Char) : List Char → Bool
  | [] => needle.isEmpty
  | c :: tl => (dropLit needle (c :: tl)).isSome || hasSub needle tl

/-- Python `s.split(sep)` for a one-character separator (empty pieces kept). -/
def splitOnChar (sep : Char) : List Char → List (List Char)
  | [] => [[]]
  | c :: tl =>
    match splitOnChar sep tl with
    | [] => if c = sep then [[], []] else [[c]]
    | h :: t => if c = sep then [] :: h :: t else (c :: h) :: t

/-- Pieces between characters satisfying `p` (empty pieces kept). -/
def splitPred (p : Char → Bool) : List Char → List (List Char)
  | [] => [[]]
  | c :: tl =>
    match splitPred p tl with
    | [] => if p c then [[], []] else [[c]]
    | h :: t => if p c then [] :: h :: t else (c :: h) :: t

/-- Python `sep.join(pieces)` for a one-character separator. -/
def intercalateChar (sep : Char) : List (List Char) → List Char
  | [] => []
  | [x] => x
  | x :: xs => x ++ sep :: intercalateChar sep xs

/-- Python `s.startswith(pre)`. -/
def strStarts (s pre : String) : Bool := (dropLit pre.toList s.toList).isSome

/-- Python `s.endswith(suf)`. -/
def strEnds (s suf : String) : Bool := (dropLit suf.toList.reverse s.toList.reverse).isSome

/-! ## Python `os.path` operations (posix flavour) -/

/-- Model of `os.path.basename` on a character list: everything after the
last `'/'`. -/
def pyBasenameL (cs : List Char) : List Char :=
  ((cs.reverse).takeWhile (fun c => c != '/')).reverse

/-- Model of `os.path.basename`. -/
def pyBasename (s : String) : String := String.mk (pyBasenameL s.toList)

/-- Model of `os.path.join a b` on character lists (posix, two arguments). -/
def pyJoinL (a b : List Char) : List Char :=
  match b with
  | '/' :: _ => b
  | _ => if a = [] ∨ a.getLast? = some '/' then a ++ b else a ++ '/' :: b

/-- Model of `os.path.join` for two arguments. -/
def pyJoin (a b : String) : String := String.mk (pyJoinL a.toList b.toList)

/-- Model of `os.path.normpath` (posix), translated from CPython
`posixpath.normpath`. -/
def pyNormpath (p : String) : String :=
  let cs := p.toList
  if cs = [] then "." else
  let initialSlashes : Nat :=
    match cs with
    | '/' :: '/' :: '/' :: _ => 1
    | '/' :: '/' :: _ => 2
    | '/' :: _ => 1
    | _ => 0
  let comps := splitOnChar '/' cs
  let newComps := comps.foldl
    (fun (acc : List (List Char)) comp =>
      if comp = [] ∨ comp = ['.'] then acc
      else if comp ≠ ['.', '.'] ∨ (initialSlashes = 0 ∧ acc = []) ∨
          acc.getLast? = some ['.', '.'] then
        acc ++ [comp]
      else
        acc.dropLast)
    []
  let joined := intercalateChar '/' newComps
  let result := List.replicate initialSlashes '/' ++ joined
  if result = [] then "." else String.mk result

/-! ## Association lists with Python `dict` insertion semantics -/

/-- Python `d[k] = v` on an insertion-ordered association list: an existing key keeps
its position and gets the new value; a new key is appended. -/
def insertAssoc {β : Type} : List (String × β) → String → β → List (String × β)
  | [], k, v => [(k, v)]
  | (k1, v1) :: tl, k, v =>
    if k1 = k then (k1, v) :: tl else (k1, v1) :: insertAssoc tl k v

/-! ## Datetimes

`datetime.datetime` values built by the script carry whole-second precision
(the fractional part is stripped before parsing), so six fields suffice. -/

structure Datetime where
  year : Nat
  month : Nat
  day : Nat
  hour : Nat
  minute : Nat
  second : Nat
deriving DecidableEq, Repr

def isLeap (y : Nat) : Bool := y % 4 = 0 && (y % 100 != 0 || y % 400 = 0)

def daysInMonth (y m : Nat) : Nat :=
  if m = 2 then (if isLeap y then 29 else 28)
  else if m = 4 ∨ m = 6 ∨ m = 9 ∨ m = 11 then 30
  else 31

/-- Validation performed by the `datetime.datetime` constructor: this is where
`datetime.strptime` raises `ValueError` on month 13, hour 25, Feb 30, &c. -/
def mkDatetime? (y m d H M S : Nat) : Option Datetime :=
  if 1 ≤ y ∧ y ≤ 9999 ∧ 1 ≤ m ∧ m ≤ 12 ∧ 1 ≤ d ∧ d ≤ daysInMonth y m
      ∧ H ≤ 23 ∧ M ≤ 59 ∧ S ≤ 59 then
    some ⟨y, m, d, H, M, S⟩
  else none

/-- Python `datetime.strptime(ds ++ ts, "%Y%m%d%H%M%S")` for an 8-digit date string and
a 6-digit time string, the only shapes the script ever feeds it (both are
captured by `\d{8}` and `\d{6}` regex groups). -/
def strptime14 (ds ts : List Char) : Option Datetime :=
  if ds.length = 8 ∧ ts.length = 6 ∧ (ds ++ ts).all Char.isDigit then
    mkDatetime? (digitsToNat (ds.take 4)) (digitsToNat ((ds.drop 4).take 2))
      (digitsToNat (ds.drop 6)) (digitsToNat (ts.take 2))
      (digitsToNat ((ts.drop 2).take 2)) (digitsToNat (ts.drop 4))
  else none

/-- A run of 1 or 2 digits that must be followed by the separator `sep`
(models `\d{1,2}` + a literal, with the regex engine's backtracking: a third
digit can never satisfy the separator, so maximal munch up to 2 is exact). -/
def takeField2Sep (sep : Char) (cs : List Char) : Option (Nat × List Char) :=
  match cs with
  | d1 :: rest =>
    if d1.isDigit then
      match rest with
      | d2 :: s :: r2 =>
        if d2.isDigit then (if s = sep then some (digitsToNat [d1, d2], r2) else none)
        else (if d2 = sep then some (digitsToNat [d1], s :: r2) else none)
      | [d2] =>
        if d2.isDigit then none else (if d2 = sep then some (digitsToNat [d1], []) else none)
      | [] => none
    else none
  | [] => none

/-- A final run of 1 or 2 digits that must consume the rest of the string
(models a trailing `\d{1,2}` group plus `strptime`'s unconverted-data check). -/
def takeField2End (cs : List Char) : Option Nat :=
  match cs with
  | [d1] => if d1.isDigit then some (digitsToNat [d1]) else none
  | [d1, d2] =>
    if d1.isDigit && d2.isDigit then some (digitsToNat [d1, d2]) else none
  | _ => none

/-- The `%Y-%m-%d` part of `strptime`: exactly 4 digits, `-`, 1-2 digits, `-`,
1-2 digits consuming the whole string. -/
def parseDashedDate (s : String) : Option (Nat × Nat × Nat) :=
  match takeDigits 4 s.toList with
  | some (ys, rest) =>
    match rest with
    | '-' :: r1 =>
      match takeField2Sep '-' r1 with
      | some (m, r2) =>
        match takeField2End r2 with
        | some d => some (digitsToNat ys, m, d)
        | none => none
      | none => none
    | _ => none
  | none => none

/-- The `%H:%M:%S` part of `strptime`: 1-2 digits, `:`, 1-2 digits, `:`,
1-2 digits consuming the whole string. -/
def parseColonTime (s : String) : Option (Nat × Nat × Nat) :=
  match takeField2Sep ':' s.toList with
  | some (H, r1) =>
    match takeField2Sep ':' r1 with
    | some (M, r2) =>
      match takeField2End r2 with
      | some S => some (H, M, S)
      | none => none
    | none => none
  | none => none

/-- Python `datetime.strptime(dateStr ++ " " ++ timeStr, "%Y-%m-%d %H:%M:%S")` for
whitespace-free field strings (the script always feeds it fields produced by
`str.split()`, which contain no whitespace). -/
def strptimeDash (dateStr timeStr : String) : Option Datetime :=
  match parseDashedDate dateStr with
  | some (y, m, d) =>
    match parseColonTime timeStr with
    | some (H, M, S) => mkDatetime? y m d H M S
    | none => none
  | none => none

/-- Mixed-radix key that is strictly monotone in the lexicographic component
order used by Python `datetime` comparison (all fields of a constructible
`Datetime` are within their radix: month ≤ 12 < 13, day ≤ 31 < 32, …). -/
def dtKey (dt : Datetime) : Nat :=
  ((((dt.year * 13 + dt.month) * 32 + dt.day) * 24 + dt.hour) * 60 + dt.minute) * 60 + dt.second

/-! ## Fixed-width two-group regular expressions

Both patterns of the script — `_(\d{8})_(\d{6})\.h5` and `rrdf_(\d{8})_(\d{6})`
— have the shape literal, digit group, literal, digit group, literal.  All
fragments are fixed width, so `re.search` semantics reduce to trying the
pattern at each position from the left. -/

/-- Try the pattern `l1 (\d{n1}) l2 (\d{n2}) l3` at the head of `cs`,
returning the two captured groups. -/
def matchPatAt (l1 : List Char) (n1 : Nat) (l2 : List Char) (n2 : Nat) (l3 : List Char)
    (cs : List Char) : Option (List Char × List Char) :=
  match dropLit l1 cs with
  | some r1 =>
    match takeDigits n1 r1 with
    | some (d, r2) =>
      match dropLit l2 r2 with
      | some r3 =>
        match takeDigits n2 r3 with
        | some (t, r4) =>
          match dropLit l3 r4 with
          | some _ => some (d, t)
          | none => none
        | none => none
      | none => none
    | none => none
  | none => none

/-- Model of `re.search` for the pattern `l1 (\d{n1}) l2 (\d{n2}) l3`:
leftmost match. -/
def searchPat (l1 : List Char) (n1 : Nat) (l2 : List Char) (n2 : Nat) (l3 : List Char) :
    List Char → Option (List Char × List Char)
  | [] => matchPatAt l1 n1 l2 n2 l3 []
  | c :: cs =>
    match matchPatAt l1 n1 l2 n2 l3 (c :: cs) with
    | some r => some r
    | none => searchPat l1 n1 l2 n2 l3 cs

/-- The search `re.search(r'_(\d{8})_(\d{6})\.h5', filename)`. -/
def searchTs (cs : List Char) : Option (List Char × List Char) :=
  searchPat ['_'] 8 ['_'] 6 ['.', 'h', '5'] cs

/-- The search `re.search(r'rrdf_(\d{8})_(\d{6})', folder_name)`. -/
def searchRrdf (cs : List Char) : Option (List Char × List Char) :=
  searchPat ['r', 'r', 'd', 'f', '_'] 8 ['_'] 6 [] cs

/-! ## One pass of a dict-building loop

Both index-building loops of the script have the same shape: per item either
skip it silently, insert a key/value pair into a dict, or raise (an uncaught
exception that aborts the whole loop). -/

inductive SyncAct (β : Type) where
  | skip
  | ins (k : String) (v : β)
  | err (e : String)

def syncStep {β : Type} (classify : String → SyncAct β) (acc : List (String × β))
    (x : String) : Except String (List (String × β)) :=
  match classify x with
  | .skip => Except.ok acc
  | .ins k v => Except.ok (insertAssoc acc k v)
  | .err e => Except.error e

def foldSteps {β : Type} (classify : String → SyncAct β) (xs : List String) :
    Except String (List (String × β)) :=
  xs.foldlM (syncStep classify) []

/-! ## `parse_rrdf_timestamps` -/

/-- The filter of `glob.glob(os.path.join(dir, '*.h5'))` on one directory
entry: matched by `*` (which skips hidden names) followed by literal `.h5`. -/
def globH5 (name : String) : Bool := !strStarts name "." && strEnds name ".h5"

/-- What the loop body of `parse_rrdf_timestamps` does with one directory
entry: skip names outside the glob, skip filenames without the timestamp
pattern (silently), index the rest — unless `strptime` raises, which aborts
the whole call (there is no try/except in this function). -/
def rrdfClassify (folderPath : String) (name : String) : SyncAct Datetime :=
  if globH5 name then
    let filePath := pyJoin folderPath name
    let filename := pyBasename filePath
    match searchTs filename.toList with
    | some (d, t) =>
      match strptime14 d t with
      | some dt => .ins filePath dt
      | none =>
        .err ("ValueError: time data " ++ String.mk (d ++ t)
          ++ " does not match format %Y%m%d%H%M%S")
    | none => .skip
  else .skip

/-- Model of `parse_rrdf_timestamps(rrdf_folder_path)`, with the directory's entries
passed in for the `glob` call.  Returns the raw-file time index, or the
uncaught `ValueError` of a timestamp parse failure. -/
def parse_rrdf_timestamps (folderPath : String) (entries : List String) :
    Except String (List (String × Datetime)) :=
  foldSteps (rrdfClassify folderPath) entries

/-! ## `relocate_rrdf_files_by_time`

Times are integers in microseconds (`datetime` resolution); the DICOM
acquisition index, read through pydicom by `get_dicom_acquisition_times`, is
passed in as data. -/

def oneMinuteUs : Int := 60 * 1000000
def oneDayUs : Int := 86400 * 1000000

/-- The inner loop: running best match, starting from
`(None, timedelta(days=1))`, replaced whenever a strictly smaller absolute
difference is seen. -/
def findBestMatch (acqTimes : List (String × Int)) (t : Int) : Option String × Int :=
  acqTimes.foldl
    (fun acc q => if |q.2 - t| < acc.2 then (some q.1, |q.2 - t|) else acc)
    (none, oneDayUs)

/-- Observable outcome of one iteration of the relocation loop. -/
inductive RelocEvent where
  /-- Event of `shutil.move` into `destFolder` followed by the rename to `newName`
  (full destination `finalPath`). -/
  | moved (origPath destFolder newName finalPath : String)
  /-- The warning that no close time match exists; the file stays where it is. -/
  | notMoved (origPath : String)
deriving DecidableEq, Repr

/-- One iteration of the loop of `relocate_rrdf_files_by_time` for the raw
file `p` with embedded time `t`.  The guard is Python's
`if best_match_folder and min_time_diff < datetime.timedelta(minutes=1)`
(`best_match_folder` is falsy when `None` or empty). -/
def relocateStep (acqTimes : List (String × Int)) (p : String) (t : Int) : RelocEvent :=
  match findBestMatch acqTimes t with
  | (some folder, dmin) =>
    if folder ≠ "" ∧ dmin < oneMinuteUs then
      let destFoldername := pyBasename (pyNormpath folder)
      let newName := destFoldername ++ ".h5"
      .moved p folder newName (pyJoin folder newName)
    else .notMoved p
  | (none, _) => .notMoved p

/-- Model of `relocate_rrdf_files_by_time`, given the two time indices. -/
def relocate_rrdf_files_by_time (acqTimes rrdfTimes : List (String × Int)) :
    List RelocEvent :=
  rrdfTimes.map (fun q => relocateStep acqTimes q.1 q.2)

/-! ## `rename_calipr_dicom_files`

The `ContentTime` of a DICOM file is read through pydicom and converted with
`float(...)`; the whole read is passed in as an oracle `String → Option ℚ`
(`none` = the read or conversion raised). -/

/-- Observable outcome of `rename_calipr_dicom_files` on one folder. -/
inductive CaliprOutcome where
  /-- The warning that 2 DICOM files were expected but n found; nothing renamed. -/
  | wrongCount (n : Nat)
  /-- The report of a ContentTime read error; nothing renamed. -/
  | readError
  /-- The two renames attempted, earlier file first. -/
  | renamed (pdOld t2Old pdNew t2New : String)
deriving DecidableEq, Repr

/-- The renames an outcome performs (old path, new path). -/
def caliprRenames : CaliprOutcome → List (String × String)
  | .renamed a b a2 b2 => [(a, a2), (b, b2)]
  | _ => []

/-- Model of `rename_calipr_dicom_files(acquisition_folder_path)`, with the folder's
`*.dcm` glob result and the `ContentTime` reader passed in.  Both content
times are read (in glob order) before any rename; `list.sort` on two elements
swaps exactly when the second time is strictly smaller (stable sort). -/
def rename_calipr_dicom_files (folderPath : String) (contentTime : String → Option ℚ)
    (dcmFiles : List String) : CaliprOutcome :=
  match dcmFiles with
  | [f0, f1] =>
    match contentTime f0 with
    | none => .readError
    | some t0 =>
      match contentTime f1 with
      | none => .readError
      | some t1 =>
        let pdPath := if t1 < t0 then f1 else f0
        let t2Path := if t1 < t0 then f0 else f1
        let baseName := pyBasename (pyNormpath folderPath)
        .renamed pdPath t2Path
          (pyJoin folderPath (baseName ++ "_protonDensity.dcm"))
          (pyJoin folderPath (baseName ++ "_T2map.dcm"))
  | l => .wrongCount l.length

/-! ## `find_dicom_session_path` -/

/-- The name-derivation half of `find_dicom_session_path`: extract
`rrdf_(\d{8})_(\d{6})` and reformat to `YYYY-MM-DD_HH_MM_SS`; `none` is the
reported "could not parse timestamp" outcome. -/
def deriveSessionName (rrdfFolderName : String) : Option String :=
  match searchRrdf rrdfFolderName.toList with
  | none => none
  | some (d, t) =>
    let sessionDate := String.mk (d.take 4) ++ "-" ++ String.mk ((d.drop 4).take 2)
      ++ "-" ++ String.mk (d.drop 6)
    let sessionTime := String.mk (t.take 2) ++ "_" ++ String.mk ((t.drop 2).take 2)
      ++ "_" ++ String.mk (t.drop 4)
    some (sessionDate ++ "_" ++ sessionTime)

/-- Model of `find_dicom_session_path(base_export_path, rrdf_folder_name)`, with the
`os.walk` traversal passed in as the list of `(root, dirs)` pairs it yields. -/
def find_dicom_session_path (walkEntries : List (String × List String))
    (rrdfFolderName : String) : Option String :=
  match deriveSessionName rrdfFolderName with
  | none => none
  | some target =>
    walkEntries.findSome? (fun e =>
      if target ∈ e.2 then some (pyJoin e.1 target) else none)

/-! ## `get_latest_exam_folder` -/

/-- Python `str.split()` with no argument: split on whitespace runs. -/
def pySplitWs (line : String) : List String :=
  ((splitPred Char.isWhitespace line.toList).filter (fun l => l ≠ [])).map String.mk

/-- The test `'rrdf_' in line`. -/
def lineQualifies (line : String) : Bool := hasSub "rrdf_".toList line.toList

/-- The loop body of `get_latest_exam_folder` on one listing line: skip lines
without `rrdf_`; otherwise read fields -1, 5, 6, strip the fractional seconds
and parse — an `IndexError` or `ValueError` is uncaught and aborts the call. -/
def examClassify (line : String) : SyncAct Datetime :=
  if lineQualifies line then
    let finfo := pySplitWs line
    if finfo.length < 7 then .err "IndexError: list index out of range"
    else
      let folderName := finfo.getLastD ""
      let dateStr := finfo.getD 5 ""
      let timeStr := finfo.getD 6 ""
      match strptimeDash dateStr (String.mk (timeStr.toList.takeWhile (fun c => c != '.'))) with
      | some dt => .ins folderName dt
      | none => .err "ValueError: time data does not match format %Y-%m-%d %H:%M:%S"
  else .skip

/-- Python `max(exam_folders, key=exam_folders.get)` on an insertion-ordered dict:
first key attaining the maximal value (replace only on strictly greater). -/
def dictMaxKeyByVal : List (String × Datetime) → Option String
  | [] => none
  | (k, v) :: tl =>
    some (tl.foldl (fun best q => if dtKey q.2 > dtKey best.2 then q else best) (k, v)).1

/-- Model of `get_latest_exam_folder(ssh)`, with the lines of `ls -l --full-time RRDF`
passed in.  `.ok none` is Python's `return None` (empty dict). -/
def get_latest_exam_folder (lines : List String) : Except String (Option String) :=
  match foldSteps examClassify lines with
  | .error e => .error e
  | .ok dict => .ok (dictMaxKeyByVal dict)

/-! ## Lemmas: digit groups and literals -/

theorem takeDigits_sound {n : Nat} {cs d r : List Char}
    (h : takeDigits n cs = some (d, r)) :
    d.length = n ∧ d.all Char.isDigit = true ∧ cs = d ++ r := by
  induction n generalizing cs d with
  | zero =>
    simp only [takeDigits, Option.some.injEq, Prod.mk.injEq] at h
    obtain ⟨h1, h2⟩ := h
    subst h1; subst h2
    simp
  | succ n ih =>
    match cs with
    | [] => simp [takeDigits] at h
    | c :: tl =>
      simp only [takeDigits] at h
      split at h
      case isTrue hdig =>
        cases heq : takeDigits n tl with
        | none => rw [heq] at h; simp at h
        | some p =>
          obtain ⟨ds, rest⟩ := p
          rw [heq] at h
          simp only [Option.some.injEq, Prod.mk.injEq] at h
          obtain ⟨h1, h2⟩ := h
          subst h2
          obtain ⟨ih1, ih2, ih3⟩ := ih heq
          subst h1
          refine ⟨by simp [ih1], ?_, by simp [ih3]⟩
          simp [List.all_cons, hdig, ih2]
      case isFalse hdig => simp at h

theorem takeDigits_complete (d : List Char) (hdig : d.all Char.isDigit = true)
    (r : List Char) : takeDigits d.length (d ++ r) = some (d, r) := by
  induction d with
  | nil => simp [takeDigits]
  | cons c tl ih =>
    simp only [List.all_cons, Bool.and_eq_true] at hdig
    simp [takeDigits, hdig.1, ih hdig.2]

theorem dropLit_sound {lit cs r : List Char} (h : dropLit lit cs = some r) :
    cs = lit ++ r := by
  induction lit generalizing cs with
  | nil =>
    simp only [dropLit, Option.some.injEq] at h
    simp [h]
  | cons l ls ih =>
    match cs with
    | [] => simp [dropLit] at h
    | c :: tl =>
      simp only [dropLit] at h
      split at h
      case isTrue hc => subst hc; simp [ih h]
      case isFalse hc => simp at h

theorem dropLit_complete (lit r : List Char) : dropLit lit (lit ++ r) = some r := by
  induction lit with
  | nil => simp [dropLit]
  | cons l ls ih => simp [dropLit, ih]

/-! ## Lemmas: the fixed-width pattern matcher -/

/-- The full text a match of `l1 (\d{n1}) l2 (\d{n2}) l3` with groups `d`, `t`
consists of. -/
def patText (l1 : List Char) (l2 : List Char) (l3 : List Char) (d t : List Char) :
    List Char :=
  l1 ++ d ++ l2 ++ t ++ l3

theorem matchPatAt_sound {l1 l3 : List Char} {n1 n2 : Nat} {l2 cs d t : List Char}
    (h : matchPatAt l1 n1 l2 n2 l3 cs = some (d, t)) :
    d.length = n1 ∧ t.length = n2 ∧ d.all Char.isDigit = true ∧ t.all Char.isDigit = true ∧
      ∃ rest, cs = patText l1 l2 l3 d t ++ rest := by
  cases h1 : dropLit l1 cs with
  | none => simp [matchPatAt, h1] at h
  | some r1 =>
    cases h2 : takeDigits n1 r1 with
    | none => simp [matchPatAt, h1, h2] at h
    | some p2 =>
      obtain ⟨d', r2⟩ := p2
      cases h3 : dropLit l2 r2 with
      | none => simp [matchPatAt, h1, h2, h3] at h
      | some r3 =>
        cases h4 : takeDigits n2 r3 with
        | none => simp [matchPatAt, h1, h2, h3, h4] at h
        | some p4 =>
          obtain ⟨t', r4⟩ := p4
          cases h5 : dropLit l3 r4 with
          | none => simp [matchPatAt, h1, h2, h3, h4, h5] at h
          | some r5 =>
            simp only [matchPatAt, h1, h2, h3, h4, h5, Option.some.injEq,
              Prod.mk.injEq] at h
            obtain ⟨hd, ht⟩ := h
            subst hd; subst ht
            obtain ⟨hd1, hd2, hd3⟩ := takeDigits_sound h2
            obtain ⟨ht1, ht2, ht3⟩ := takeDigits_sound h4
            refine ⟨hd1, ht1, hd2, ht2, r5, ?_⟩
            rw [dropLit_sound h1, hd3, dropLit_sound h3, ht3, dropLit_sound h5]
            simp [patText]

theorem matchPatAt_complete {l1 l2 l3 d t : List Char} (rest : List Char)
    (hd1 : d.all Char.isDigit = true) (ht1 : t.all Char.isDigit = true) :
    matchPatAt l1 d.length l2 t.length l3 (patText l1 l2 l3 d t ++ rest) =
      some (d, t) := by
  have hassoc : patText l1 l2 l3 d t ++ rest = l1 ++ (d ++ (l2 ++ (t ++ (l3 ++ rest)))) := by
    simp [patText, List.append_assoc]
  rw [hassoc]
  simp only [matchPatAt, dropLit_complete, takeDigits_complete d hd1,
    takeDigits_complete t ht1]

theorem searchPat_of_matchAt {l1 l3 : List Char} {n1 n2 : Nat} {l2 cs : List Char}
    {p : List Char × List Char} (hm : matchPatAt l1 n1 l2 n2 l3 cs = some p) :
    searchPat l1 n1 l2 n2 l3 cs = some p := by
  cases cs with
  | nil => simpa [searchPat] using hm
  | cons c tl => simp [searchPat, hm]

theorem searchPat_sound {l1 l3 : List Char} {n1 n2 : Nat} {l2 cs d t : List Char}
    (h : searchPat l1 n1 l2 n2 l3 cs = some (d, t)) :
    d.length = n1 ∧ t.length = n2 ∧ d.all Char.isDigit = true ∧ t.all Char.isDigit = true ∧
      ∃ pre rest, cs = pre ++ patText l1 l2 l3 d t ++ rest := by
  induction cs with
  | nil =>
    simp only [searchPat] at h
    obtain ⟨p1, p2, p3, p4, rest, hrest⟩ := matchPatAt_sound h
    exact ⟨p1, p2, p3, p4, [], rest, by simp [hrest]⟩
  | cons c tl ih =>
    cases hm : matchPatAt l1 n1 l2 n2 l3 (c :: tl) with
    | some p =>
      simp only [searchPat, hm, Option.some.injEq] at h
      subst h
      obtain ⟨p1, p2, p3, p4, rest, hrest⟩ := matchPatAt_sound hm
      exact ⟨p1, p2, p3, p4, [], rest, by simp [hrest]⟩
    | none =>
      simp only [searchPat, hm] at h
      obtain ⟨p1, p2, p3, p4, pre, rest, hrest⟩ := ih h
      exact ⟨p1, p2, p3, p4, c :: pre, rest, by simp [hrest]⟩

theorem searchPat_isSome_of_mem {l1 l2 l3 d t : List Char} (pre rest : List Char)
    (hd1 : d.all Char.isDigit = true) (ht1 : t.all Char.isDigit = true) :
    (searchPat l1 d.length l2 t.length l3
      (pre ++ (patText l1 l2 l3 d t ++ rest))).isSome = true := by
  induction pre with
  | nil =>
    rw [List.nil_append,
      searchPat_of_matchAt (matchPatAt_complete rest hd1 ht1)]
    rfl
  | cons c ptl ih =>
    cases hm : matchPatAt l1 d.length l2 t.length l3
        (c :: (ptl ++ (patText l1 l2 l3 d t ++ rest))) with
    | some p => simp [searchPat, hm]
    | none => simpa [searchPat, hm] using ih

/-! ## Lemmas: dict building -/

/-- The entry a loop pass inserts, if any. -/
def actEntry? {β : Type} : SyncAct β → Option (String × β)
  | .ins k v => some (k, v)
  | _ => none

theorem insertAssoc_fresh {β : Type} {l : List (String × β)} {k : String} {v : β}
    (h : k ∉ l.map Prod.fst) : insertAssoc l k v = l ++ [(k, v)] := by
  induction l with
  | nil => rfl
  | cons q tl ih =>
    obtain ⟨k1, v1⟩ := q
    simp only [List.map_cons, List.mem_cons, not_or] at h
    have hne : ¬k1 = k := fun he => h.1 he.symm
    simp [insertAssoc, hne, ih h.2]

/-- Keys that a run of the loop over `xs` inserts. -/
def insKeys {β : Type} (classify : String → SyncAct β) (xs : List String) : List String :=
  xs.filterMap (fun x => (actEntry? (classify x)).map Prod.fst)

theorem syncStep_eq_skip {β : Type} {classify : String → SyncAct β}
    {acc : List (String × β)} {x : String} (h : classify x = .skip) :
    syncStep classify acc x = Except.ok acc := by
  simp [syncStep, h]

theorem syncStep_eq_ins {β : Type} {classify : String → SyncAct β}
    {acc : List (String × β)} {x : String} {k : String} {v : β}
    (h : classify x = .ins k v) :
    syncStep classify acc x = Except.ok (insertAssoc acc k v) := by
  simp [syncStep, h]

theorem syncStep_eq_err {β : Type} {classify : String → SyncAct β}
    {acc : List (String × β)} {x : String} {e : String} (h : classify x = .err e) :
    syncStep classify acc x = Except.error e := by
  simp [syncStep, h]

theorem except_bind_ok {α : Type} (a : α) (f : α → Except String α) :
    (Except.ok a >>= f) = f a := rfl

theorem except_bind_error {α : Type} (e : String) (f : α → Except String α) :
    ((Except.error e : Except String α) >>= f) = Except.error e := rfl

theorem foldSteps_ok_aux {β : Type} (classify : String → SyncAct β) :
    ∀ (xs : List String) (acc : List (String × β)),
    (∀ x ∈ xs, ∀ e, classify x ≠ .err e) →
    (∀ k ∈ acc.map Prod.fst, k ∉ insKeys classify xs) →
    (insKeys classify xs).Nodup →
    xs.foldlM (syncStep classify) acc =
      .ok (acc ++ xs.filterMap (fun x => actEntry? (classify x))) := by
  intro xs
  induction xs with
  | nil => intro acc _ _ _; simp [List.foldlM_nil]; rfl
  | cons x tl ih =>
    intro acc hnoerr hdisj hnd
    rw [List.foldlM_cons]
    cases hc : classify x with
    | err e => exact absurd hc (hnoerr x (by simp) e)
    | skip =>
      rw [syncStep_eq_skip hc, except_bind_ok]
      have hkeys : insKeys classify (x :: tl) = insKeys classify tl := by
        simp [insKeys, hc, actEntry?]
      rw [hkeys] at hdisj hnd
      rw [ih acc (fun y hy e => hnoerr y (by simp [hy]) e) hdisj hnd]
      simp [hc, actEntry?]
    | ins k v =>
      have hkeys : insKeys classify (x :: tl) = k :: insKeys classify tl := by
        simp [insKeys, hc, actEntry?]
      rw [hkeys] at hdisj hnd
      have hfresh : k ∉ acc.map Prod.fst := fun hk => hdisj k hk (by simp)
      rw [syncStep_eq_ins hc, insertAssoc_fresh hfresh, except_bind_ok]
      have hdisj2 : ∀ k2 ∈ (acc ++ [(k, v)]).map Prod.fst, k2 ∉ insKeys classify tl := by
        intro k2 hk2
        simp only [List.map_append, List.mem_append, List.map_cons, List.map_nil,
          List.mem_singleton] at hk2
        rcases hk2 with hk2 | hk2
        · exact fun hmem => hdisj k2 hk2 (by simp [hmem])
        · subst hk2; exact (List.nodup_cons.mp hnd).1
      rw [ih (acc ++ [(k, v)]) (fun y hy e => hnoerr y (by simp [hy]) e) hdisj2
        (List.nodup_cons.mp hnd).2]
      simp [hc, actEntry?]

/-- When no pass raises and the inserted keys are distinct, a dict-building
loop returns exactly its insertions, in encounter order. -/
theorem foldSteps_ok {β : Type} (classify : String → SyncAct β) (xs : List String)
    (hnoerr : ∀ x ∈ xs, ∀ e, classify x ≠ .err e)
    (hnd : (insKeys classify xs).Nodup) :
    foldSteps classify xs = .ok (xs.filterMap (fun x => actEntry? (classify x))) := by
  have h := foldSteps_ok_aux classify xs [] hnoerr (by simp) hnd
  simpa [foldSteps] using h

theorem foldSteps_err_aux {β : Type} (classify : String → SyncAct β) :
    ∀ (xs : List String) (acc : List (String × β)),
    (∃ x ∈ xs, ∃ e, classify x = .err e) →
    ∃ e, xs.foldlM (syncStep classify) acc = .error e := by
  intro xs
  induction xs with
  | nil => intro acc h; simp at h
  | cons x tl ih =>
    intro acc h
    rw [List.foldlM_cons]
    cases hc : classify x with
    | err e =>
      exact ⟨e, by rw [syncStep_eq_err hc, except_bind_error]⟩
    | skip =>
      rw [syncStep_eq_skip hc, except_bind_ok]
      obtain ⟨y, hy, e, he⟩ := h
      rcases List.mem_cons.mp hy with hyx | hyt
      · subst hyx; rw [hc] at he; exact absurd he (by simp)
      · exact ih acc ⟨y, hyt, e, he⟩
    | ins k v =>
      rw [syncStep_eq_ins hc, except_bind_ok]
      obtain ⟨y, hy, e, he⟩ := h
      rcases List.mem_cons.mp hy with hyx | hyt
      · subst hyx; rw [hc] at he; exact absurd he (by simp)
      · exact ih _ ⟨y, hyt, e, he⟩

/-- A single raising pass aborts the whole dict-building loop. -/
theorem foldSteps_err {β : Type} (classify : String → SyncAct β) (xs : List String)
    (h : ∃ x ∈ xs, ∃ e, classify x = .err e) :
    ∃ e, foldSteps classify xs = .error e :=
  foldSteps_err_aux classify xs [] h

/-! ## Lemmas: the best-match fold -/

theorem fbm_aux_le (t : Int) (l : List (String × Int)) :
    ∀ acc : Option String × Int,
    (l.foldl (fun acc q => if |q.2 - t| < acc.2 then (some q.1, |q.2 - t|) else acc) acc).2
        ≤ acc.2 ∧
    ∀ q ∈ l,
      (l.foldl (fun acc q => if |q.2 - t| < acc.2 then (some q.1, |q.2 - t|) else acc) acc).2
        ≤ |q.2 - t| := by
  induction l with
  | nil => intro acc; exact ⟨le_refl _, by simp⟩
  | cons q0 tl ih =>
    intro acc
    rw [List.foldl_cons]
    by_cases hlt : |q0.2 - t| < acc.2
    · rw [if_pos hlt]
      refine ⟨le_trans (ih _).1 (le_of_lt hlt), ?_⟩
      intro q hq
      rcases List.mem_cons.mp hq with hq0 | hqt
      · subst hq0; exact (ih _).1
      · exact (ih _).2 q hqt
    · rw [if_neg hlt]
      refine ⟨(ih _).1, ?_⟩
      intro q hq
      rcases List.mem_cons.mp hq with hq0 | hqt
      · subst hq0; exact le_trans (ih _).1 (not_lt.mp hlt)
      · exact (ih _).2 q hqt

theorem fbm_aux_attain (t : Int) (l : List (String × Int)) :
    ∀ acc : Option String × Int,
    l.foldl (fun acc q => if |q.2 - t| < acc.2 then (some q.1, |q.2 - t|) else acc) acc = acc ∨
    ∃ q ∈ l,
      l.foldl (fun acc q => if |q.2 - t| < acc.2 then (some q.1, |q.2 - t|) else acc) acc =
        (some q.1, |q.2 - t|) := by
  induction l with
  | nil => intro acc; exact Or.inl rfl
  | cons q0 tl ih =>
    intro acc
    rw [List.foldl_cons]
    by_cases hlt : |q0.2 - t| < acc.2
    · rw [if_pos hlt]
      rcases ih (some q0.1, |q0.2 - t|) with heq | ⟨q, hq, heq⟩
      · exact Or.inr ⟨q0, by simp, heq⟩
      · exact Or.inr ⟨q, by simp [hq], heq⟩
    · rw [if_neg hlt]
      rcases ih acc with heq | ⟨q, hq, heq⟩
      · exact Or.inl heq
      · exact Or.inr ⟨q, by simp [hq], heq⟩

theorem findBestMatch_le_all {acq : List (String × Int)} {t : Int} {q : String × Int}
    (hq : q ∈ acq) : (findBestMatch acq t).2 ≤ |q.2 - t| :=
  (fbm_aux_le t acq (none, oneDayUs)).2 q hq

theorem findBestMatch_attain (acq : List (String × Int)) (t : Int) :
    findBestMatch acq t = (none, oneDayUs) ∨
    ∃ q ∈ acq, findBestMatch acq t = (some q.1, |q.2 - t|) :=
  fbm_aux_attain t acq (none, oneDayUs)

/-! ## Lemmas: basenames and joins -/

theorem takeWhile_of_all {p : Char → Bool} {ys : List Char} (h : ys.all p = true) :
    ys.takeWhile p = ys := by
  induction ys with
  | nil => rfl
  | cons y tl ih =>
    simp only [List.all_cons, Bool.and_eq_true] at h
    simp [List.takeWhile_cons, h.1, ih h.2]

theorem takeWhile_append_stop {p : Char → Bool} {ys zs : List Char} {c : Char}
    (h : ys.all p = true) (hc : p c = false) :
    (ys ++ c :: zs).takeWhile p = ys := by
  induction ys with
  | nil => simp [List.takeWhile_cons, hc]
  | cons y tl ih =>
    simp only [List.all_cons, Bool.and_eq_true] at h
    simp [List.takeWhile_cons, h.1, ih h.2]

theorem pyBasenameL_of_no_slash {ys : List Char} (h : ys.all (fun c => c != '/') = true) :
    pyBasenameL ys = ys := by
  unfold pyBasenameL
  rw [takeWhile_of_all (by simpa using h), List.reverse_reverse]

theorem pyBasenameL_last_component {xs ys : List Char}
    (h : ys.all (fun c => c != '/') = true) :
    pyBasenameL (xs ++ '/' :: ys) = ys := by
  unfold pyBasenameL
  have hrev : (xs ++ '/' :: ys).reverse = ys.reverse ++ '/' :: xs.reverse := by simp
  rw [hrev, takeWhile_append_stop (by simpa using h) (by simp), List.reverse_reverse]

theorem pyBasenameL_no_slash (cs : List Char) :
    (pyBasenameL cs).all (fun c => c != '/') = true := by
  unfold pyBasenameL
  rw [List.all_eq_true]
  intro c hc
  rw [List.mem_reverse] at hc
  exact List.mem_takeWhile_imp (p := fun c => c != '/') hc

theorem getLast?_eq_some_decomp {l : List Char} {c : Char} (h : l.getLast? = some c) :
    ∃ init, l = init ++ [c] := by
  induction l with
  | nil => simp at h
  | cons a tl ih =>
    cases tl with
    | nil =>
      simp only [List.getLast?_singleton, Option.some.injEq] at h
      exact ⟨[], by simp [h]⟩
    | cons b tl2 =>
      rw [List.getLast?_cons_cons] at h
      obtain ⟨init, hinit⟩ := ih h
      exact ⟨a :: init, by simp [hinit]⟩

/-- Identity `os.path.basename (os.path.join a b) = b` whenever `b` is a plain name
containing no separator. -/
theorem pyBasenameL_pyJoinL {a b : List Char} (h : b.all (fun c => c != '/') = true) :
    pyBasenameL (pyJoinL a b) = b := by
  unfold pyJoinL
  split
  case _ tail =>
    simp at h
  case _ =>
    split
    case isTrue hcond =>
      rcases hcond with ha | ha
      · rw [ha, List.nil_append]
        exact pyBasenameL_of_no_slash h
      · obtain ⟨init, hinit⟩ := getLast?_eq_some_decomp ha
        have hassoc : (init ++ ['/']) ++ b = init ++ '/' :: b := by simp
        rw [hinit, hassoc]
        exact pyBasenameL_last_component h
    case isFalse hcond =>
      exact pyBasenameL_last_component h

theorem string_mk_toList (s : String) : String.mk s.toList = s := rfl

theorem toList_string_mk (l : List Char) : (String.mk l).toList = l := rfl

/-- String-level version of `pyBasenameL_pyJoinL`. -/
theorem pyBasename_pyJoin {a b : String} (h : b.toList.all (fun c => c != '/') = true) :
    pyBasename (pyJoin a b) = b := by
  unfold pyBasename pyJoin
  rw [toList_string_mk, pyBasenameL_pyJoinL h, string_mk_toList]

/-- A Python basename never contains a separator. -/
theorem pyBasename_no_slash (s : String) :
    (pyBasename s).toList.all (fun c => c != '/') = true := by
  unfold pyBasename
  rw [toList_string_mk]
  exact pyBasenameL_no_slash s.toList

/-! ## Lemmas: `max` over a dict -/

theorem dictMax_fold_spec (tl : List (String × Datetime)) :
    ∀ best : String × Datetime,
    (tl.foldl (fun best q => if dtKey q.2 > dtKey best.2 then q else best) best = best ∨
      tl.foldl (fun best q => if dtKey q.2 > dtKey best.2 then q else best) best ∈ tl) ∧
    dtKey best.2 ≤
      dtKey (tl.foldl (fun best q => if dtKey q.2 > dtKey best.2 then q else best) best).2 ∧
    ∀ q ∈ tl,
      dtKey q.2 ≤
        dtKey (tl.foldl (fun best q => if dtKey q.2 > dtKey best.2 then q else best) best).2 := by
  induction tl with
  | nil => intro best; exact ⟨Or.inl rfl, le_refl _, by simp⟩
  | cons q0 tl2 ih =>
    intro best
    rw [List.foldl_cons]
    by_cases hgt : dtKey q0.2 > dtKey best.2
    · rw [if_pos hgt]
      refine ⟨?_, ?_, ?_⟩
      · rcases (ih q0).1 with heq | hmem
        · exact Or.inr (by simp [heq])
        · exact Or.inr (by simp [hmem])
      · exact le_trans (le_of_lt hgt) (ih q0).2.1
      · intro q hq
        rcases List.mem_cons.mp hq with hq0 | hqt
        · subst hq0; exact (ih q).2.1
        · exact (ih q0).2.2 q hqt
    · rw [if_neg hgt]
      refine ⟨?_, (ih best).2.1, ?_⟩
      · rcases (ih best).1 with heq | hmem
        · exact Or.inl heq
        · exact Or.inr (by simp [hmem])
      · intro q hq
        rcases List.mem_cons.mp hq with hq0 | hqt
        · subst hq0
          exact le_trans (not_lt.mp hgt) (ih best).2.1
        · exact (ih best).2.2 q hqt

theorem dictMaxKeyByVal_none_iff (l : List (String × Datetime)) :
    dictMaxKeyByVal l = none ↔ l = [] := by
  cases l with
  | nil => simp [dictMaxKeyByVal]
  | cons q tl => obtain ⟨k, v⟩ := q; simp [dictMaxKeyByVal]

theorem dictMaxKeyByVal_spec {l : List (String × Datetime)} {k : String}
    (h : dictMaxKeyByVal l = some k) :
    ∃ v, (k, v) ∈ l ∧ ∀ q ∈ l, dtKey q.2 ≤ dtKey v := by
  cases l with
  | nil => simp [dictMaxKeyByVal] at h
  | cons q0 tl =>
    obtain ⟨k0, v0⟩ := q0
    simp only [dictMaxKeyByVal, Option.some.injEq] at h
    obtain ⟨hbest, hle0, hleall⟩ := dictMax_fold_spec tl (k0, v0)
    set r := tl.foldl (fun best q => if dtKey q.2 > dtKey best.2 then q else best) (k0, v0)
      with hr
    refine ⟨r.2, ?_, ?_⟩
    · rcases hbest with heq | hmem
      · rw [← h, heq]; simp
      · rw [← h]
        right
        simpa using hmem
    · intro q hq
      rcases List.mem_cons.mp hq with hq0 | hqt
      · subst hq0; exact hle0
      · exact hleall q hqt

theorem toList_append (a b : String) : (a ++ b).toList = a.toList ++ b.toList :=
  String.data_append a b

theorem no_slash_append {a b : String}
    (ha : a.toList.all (fun c => c != '/') = true)
    (hb : b.toList.all (fun c => c != '/') = true) :
    (a ++ b).toList.all (fun c => c != '/') = true := by
  rw [toList_append, List.all_append, ha, hb]
  rfl

/-- The new name `rename_calipr_dicom_files` builds is a plain basename glued
onto the folder path, so its basename is exactly `<folder-basename><suffix>`. -/
theorem calipr_new_name_basename (folderPath suffix : String)
    (hs : suffix.toList.all (fun c => c != '/') = true) :
    pyBasename (pyJoin folderPath (pyBasename (pyNormpath folderPath) ++ suffix)) =
      pyBasename (pyNormpath folderPath) ++ suffix :=
  pyBasename_pyJoin (no_slash_append (pyBasename_no_slash _) hs)

/-! ## Claim C5 -/

/-- C5: in a CALIPR acquisition folder with exactly two candidate `.dcm`
files, the disambiguator sorts the pair ascending by the per-file
`ContentTime` value and renames the earlier file to
`<folder-basename>_protonDensity.dcm` and the later one to
`<folder-basename>_T2map.dcm`. -/
theorem calipr_roles_by_content_time (folderPath f0 f1 : String)
    (contentTime : String → Option ℚ) (t0 t1 : ℚ)
    (h0 : contentTime f0 = some t0) (h1 : contentTime f1 = some t1) (_hne : t0 ≠ t1) :
    ∃ pd tm, rename_calipr_dicom_files folderPath contentTime [f0, f1] =
        .renamed pd tm
          (pyJoin folderPath (pyBasename (pyNormpath folderPath) ++ "_protonDensity.dcm"))
          (pyJoin folderPath (pyBasename (pyNormpath folderPath) ++ "_T2map.dcm")) ∧
      (t0 < t1 → pd = f0 ∧ tm = f1) ∧ (t1 < t0 → pd = f1 ∧ tm = f0) ∧
      pyBasename (pyJoin folderPath (pyBasename (pyNormpath folderPath)
          ++ "_protonDensity.dcm")) =
        pyBasename (pyNormpath folderPath) ++ "_protonDensity.dcm" ∧
      pyBasename (pyJoin folderPath (pyBasename (pyNormpath folderPath) ++ "_T2map.dcm")) =
        pyBasename (pyNormpath folderPath) ++ "_T2map.dcm" := by
  by_cases hlt : t1 < t0
  · refine ⟨f1, f0, ?_, ?_, fun _ => ⟨rfl, rfl⟩,
      calipr_new_name_basename _ _ (by decide), calipr_new_name_basename _ _ (by decide)⟩
    · simp [rename_calipr_dicom_files, h0, h1, if_pos hlt]
    · intro hc; exact absurd (lt_trans hc hlt) (lt_irrefl _)
  · refine ⟨f0, f1, ?_, fun _ => ⟨rfl, rfl⟩, ?_,
      calipr_new_name_basename _ _ (by decide), calipr_new_name_basename _ _ (by decide)⟩
    · simp [rename_calipr_dicom_files, h0, h1, if_neg hlt]
    · intro hc; exact absurd hc hlt

/-- Witness for C5 on the spec's example content times `143015.0` and
`143022.5`. -/
theorem calipr_roles_by_content_time_witness :
    ∃ pd tm, rename_calipr_dicom_files "/e/s/calipr_series/"
        (fun s => if s = "a.dcm" then some ((143015 : ℚ)) else some ((1430225 : ℚ) / 10))
        ["a.dcm", "b.dcm"] =
        .renamed pd tm
          (pyJoin "/e/s/calipr_series/"
            (pyBasename (pyNormpath "/e/s/calipr_series/") ++ "_protonDensity.dcm"))
          (pyJoin "/e/s/calipr_series/"
            (pyBasename (pyNormpath "/e/s/calipr_series/") ++ "_T2map.dcm")) ∧
      ((143015 : ℚ) < (1430225 : ℚ) / 10 → pd = "a.dcm" ∧ tm = "b.dcm") ∧
      ((1430225 : ℚ) / 10 < (143015 : ℚ) → pd = "b.dcm" ∧ tm = "a.dcm") ∧
      pyBasename (pyJoin "/e/s/calipr_series/" (pyBasename (pyNormpath "/e/s/calipr_series/")
          ++ "_protonDensity.dcm")) =
        pyBasename (pyNormpath "/e/s/calipr_series/") ++ "_protonDensity.dcm" ∧
      pyBasename (pyJoin "/e/s/calipr_series/" (pyBasename (pyNormpath "/e/s/calipr_series/")
          ++ "_T2map.dcm")) =
        pyBasename (pyNormpath "/e/s/calipr_series/") ++ "_T2map.dcm" :=
  calipr_roles_by_content_time "/e/s/calipr_series/" "a.dcm" "b.dcm" _ 143015 (1430225 / 10)
    (by simp) (by simp) (by norm_num)

/-! ## Claim C6 -/

/-- C6: with any number of candidate files other than exactly two, the CALIPR
step aborts for that folder with the wrong-count warning and renames
nothing. -/
theorem calipr_wrong_count_skips (folderPath : String) (contentTime : String → Option ℚ)
    (dcmFiles : List String) (h : dcmFiles.length ≠ 2) :
    rename_calipr_dicom_files folderPath contentTime dcmFiles =
      .wrongCount dcmFiles.length ∧
    caliprRenames (rename_calipr_dicom_files folderPath contentTime dcmFiles) = [] := by
  match dcmFiles with
  | [] => exact ⟨rfl, rfl⟩
  | [f0] => exact ⟨rfl, rfl⟩
  | [f0, f1] => simp at h
  | f0 :: f1 :: f2 :: tl => exact ⟨rfl, rfl⟩

/-- Witness for C6 with three candidate files. -/
theorem calipr_wrong_count_skips_witness :
    rename_calipr_dicom_files "/e/s/calipr_series/" (fun _ => some (0 : ℚ))
        ["a.dcm", "b.dcm", "c.dcm"] =
      .wrongCount (["a.dcm", "b.dcm", "c.dcm"] : List String).length ∧
    caliprRenames (rename_calipr_dicom_files "/e/s/calipr_series/" (fun _ => some (0 : ℚ))
        ["a.dcm", "b.dcm", "c.dcm"]) = [] :=
  calipr_wrong_count_skips "/e/s/calipr_series/" (fun _ => some (0 : ℚ))
    ["a.dcm", "b.dcm", "c.dcm"] (by decide)

/-! ## Claim C10 -/

/-- C10: both content times are read before any rename is attempted, so a
failed read of either of the two candidate files yields the read-error report
and no rename at all. -/
theorem calipr_read_failure_renames_nothing (folderPath : String)
    (contentTime : String → Option ℚ) (f0 f1 : String)
    (h : contentTime f0 = none ∨ contentTime f1 = none) :
    rename_calipr_dicom_files folderPath contentTime [f0, f1] = .readError ∧
    caliprRenames (rename_calipr_dicom_files folderPath contentTime [f0, f1]) = [] := by
  cases h0 : contentTime f0 with
  | none => constructor <;> simp [rename_calipr_dicom_files, h0, caliprRenames]
  | some t0 =>
    cases h1 : contentTime f1 with
    | none => constructor <;> simp [rename_calipr_dicom_files, h0, h1, caliprRenames]
    | some t1 =>
      rcases h with h | h
      · rw [h0] at h; exact absurd h (by simp)
      · rw [h1] at h; exact absurd h (by simp)

/-- Witness for C10: the first file's `ContentTime` read raises. -/
theorem calipr_read_failure_renames_nothing_witness :
    rename_calipr_dicom_files "/e/s/calipr_series/"
        (fun s => if s = "a.dcm" then none else some (90031 : ℚ)) ["a.dcm", "b.dcm"] =
      .readError ∧
    caliprRenames (rename_calipr_dicom_files "/e/s/calipr_series/"
        (fun s => if s = "a.dcm" then none else some (90031 : ℚ)) ["a.dcm", "b.dcm"]) = [] :=
  calipr_read_failure_renames_nothing "/e/s/calipr_series/"
    (fun s => if s = "a.dcm" then none else some (90031 : ℚ)) "a.dcm" "b.dcm"
    (Or.inl (by simp))

/-! ## Claim C4 -/

/-- C4: every successful relocation renames the raw file so that its new base
name is the destination folder's base name followed by the `.h5` extension,
whatever the original name was. -/
theorem relocated_name_matches_folder (acqTimes rrdfTimes : List (String × Int))
    (e : RelocEvent) (he : e ∈ relocate_rrdf_files_by_time acqTimes rrdfTimes)
    (p dest nn fp : String) (heq : e = .moved p dest nn fp) :
    nn = pyBasename (pyNormpath dest) ++ ".h5" ∧
    pyBasename fp = pyBasename (pyNormpath dest) ++ ".h5" := by
  subst heq
  obtain ⟨q, hq, hstep⟩ := List.mem_map.mp he
  rcases hfb : findBestMatch acqTimes q.2 with ⟨ofold, dmin⟩
  cases ofold with
  | none => simp [relocateStep, hfb] at hstep
  | some folder =>
    simp only [relocateStep, hfb] at hstep
    split at hstep
    case isTrue hcond =>
      simp only [RelocEvent.moved.injEq] at hstep
      obtain ⟨hp, hdest, hnn, hfp⟩ := hstep
      subst hdest; subst hnn; subst hfp
      exact ⟨rfl, pyBasename_pyJoin (no_slash_append (pyBasename_no_slash _) (by decide))⟩
    case isFalse hcond => simp at hstep

/-- Witness for C4 on a concrete relocation. -/
theorem relocated_name_matches_folder_witness :
    "acq1.h5" = pyBasename (pyNormpath "/s/acq1/") ++ ".h5" ∧
    pyBasename "/s/acq1/acq1.h5" = pyBasename (pyNormpath "/s/acq1/") ++ ".h5" :=
  relocated_name_matches_folder [("/s/acq1/", 0)] [("/t/a_x.h5", 1000000)]
    (RelocEvent.moved "/t/a_x.h5" "/s/acq1/" "acq1.h5" "/s/acq1/acq1.h5") (by decide)
    "/t/a_x.h5" "/s/acq1/" "acq1.h5" "/s/acq1/acq1.h5" rfl

/-! ## Claims C1 and C9: the matching loop -/

theorem oneMinute_lt_oneDay : oneMinuteUs < oneDayUs := by
  norm_num [oneMinuteUs, oneDayUs]

theorem relocateStep_cases (acq : List (String × Int)) (p : String) (t : Int) :
    relocateStep acq p t = .notMoved p ∨
    ∃ dest nn fp, relocateStep acq p t = .moved p dest nn fp := by
  rcases hfb : findBestMatch acq t with ⟨ofold, dmin⟩
  cases ofold with
  | none => left; simp [relocateStep, hfb]
  | some folder =>
    simp only [relocateStep, hfb]
    split
    · right; exact ⟨folder, _, _, rfl⟩
    · left; rfl

theorem relocateStep_moved_orig {acq : List (String × Int)} {p t p2 dest nn fp}
    (h : relocateStep acq p t = .moved p2 dest nn fp) : p2 = p := by
  rcases hfb : findBestMatch acq t with ⟨ofold, dmin⟩
  cases ofold with
  | none => simp [relocateStep, hfb] at h
  | some folder =>
    simp only [relocateStep, hfb] at h
    split at h
    · simp only [RelocEvent.moved.injEq] at h
      exact h.1.symm
    · simp at h

theorem relocateStep_notMoved_orig {acq : List (String × Int)} {p t p2}
    (h : relocateStep acq p t = .notMoved p2) : p2 = p := by
  rcases hfb : findBestMatch acq t with ⟨ofold, dmin⟩
  cases ofold with
  | none =>
    simp only [relocateStep, hfb, RelocEvent.notMoved.injEq] at h
    exact h.symm
  | some folder =>
    simp only [relocateStep, hfb] at h
    split at h
    · simp at h
    · simp only [RelocEvent.notMoved.injEq] at h
      exact h.symm

theorem relocateStep_moved_iff (acq : List (String × Int))
    (hne : ∀ q ∈ acq, q.1 ≠ "") (p : String) (t : Int) :
    (∃ dest nn fp, relocateStep acq p t = .moved p dest nn fp) ↔
      ∃ q ∈ acq, |q.2 - t| < oneMinuteUs := by
  constructor
  · rintro ⟨dest, nn, fp, hstep⟩
    rcases hfb : findBestMatch acq t with ⟨ofold, dmin⟩
    cases ofold with
    | none => simp [relocateStep, hfb] at hstep
    | some folder =>
      simp only [relocateStep, hfb] at hstep
      split at hstep
      case isTrue hcond =>
        rcases findBestMatch_attain acq t with hinit | ⟨q, hq, heq⟩
        · rw [hfb] at hinit
          simp at hinit
        · rw [hfb] at heq
          have hd : dmin = |q.2 - t| := congrArg Prod.snd heq
          exact ⟨q, hq, by rw [← hd]; exact hcond.2⟩
      case isFalse hcond => simp at hstep
  · rintro ⟨q, hq, hlt⟩
    have hle := findBestMatch_le_all (t := t) hq
    rcases findBestMatch_attain acq t with hinit | ⟨q2, hq2, heq⟩
    · rw [hinit] at hle
      exact absurd (lt_of_le_of_lt hle hlt) (lt_asymm oneMinute_lt_oneDay)
    · have hdlt : |q2.2 - t| < oneMinuteUs := by
        rw [heq] at hle
        exact lt_of_le_of_lt hle hlt
      have hstep : relocateStep acq p t =
          .moved p q2.1 (pyBasename (pyNormpath q2.1) ++ ".h5")
            (pyJoin q2.1 (pyBasename (pyNormpath q2.1) ++ ".h5")) := by
        simp only [relocateStep, heq]
        rw [if_pos ⟨hne q2 hq2, hdlt⟩]
      exact ⟨_, _, _, hstep⟩

theorem relocateStep_notMoved_iff (acq : List (String × Int))
    (hne : ∀ q ∈ acq, q.1 ≠ "") (p : String) (t : Int) :
    relocateStep acq p t = .notMoved p ↔ ¬ ∃ q ∈ acq, |q.2 - t| < oneMinuteUs := by
  constructor
  · intro hstep hex
    obtain ⟨dest, nn, fp, hmov⟩ := (relocateStep_moved_iff acq hne p t).mpr hex
    rw [hstep] at hmov
    exact absurd hmov (by simp)
  · intro hnx
    rcases relocateStep_cases acq p t with h | ⟨dest, nn, fp, h⟩
    · exact h
    · exact absurd ((relocateStep_moved_iff acq hne p t).mp ⟨dest, nn, fp, h⟩) hnx

theorem nodup_key_val_unique {l : List (String × Int)} (hnd : (l.map Prod.fst).Nodup)
    {p : String} {t t2 : Int} (h1 : (p, t) ∈ l) (h2 : (p, t2) ∈ l) : t = t2 := by
  induction l with
  | nil => simp at h1
  | cons q tl ih =>
    simp only [List.map_cons, List.nodup_cons] at hnd
    rcases List.mem_cons.mp h1 with e1 | m1
    · rcases List.mem_cons.mp h2 with e2 | m2
      · rw [← e1] at e2
        exact (Prod.mk.injEq _ _ _ _ ▸ e2).2.symm
      · exfalso
        exact hnd.1 (by rw [← e1]; exact List.mem_map.mpr ⟨(p, t2), m2, rfl⟩)
    · rcases List.mem_cons.mp h2 with e2 | m2
      · exfalso
        exact hnd.1 (by rw [← e2]; exact List.mem_map.mpr ⟨(p, t), m1, rfl⟩)
      · exact ih hnd.2 m1 m2

/-- C1: a raw file of the index is relocated exactly when some acquisition
folder lies strictly within the one-minute tolerance of its embedded time
(equivalently, when the minimum time distance is under one minute); otherwise
the loop emits the not-moved report for it, leaving it in place. -/
theorem relocation_iff_within_tolerance (acqTimes rrdfTimes : List (String × Int))
    (hne : ∀ q ∈ acqTimes, q.1 ≠ "")
    (hnd : (rrdfTimes.map Prod.fst).Nodup)
    (p : String) (t : Int) (hmem : (p, t) ∈ rrdfTimes) :
    ((∃ dest nn fp,
        RelocEvent.moved p dest nn fp ∈ relocate_rrdf_files_by_time acqTimes rrdfTimes) ↔
      ∃ q ∈ acqTimes, |q.2 - t| < oneMinuteUs) ∧
    (RelocEvent.notMoved p ∈ relocate_rrdf_files_by_time acqTimes rrdfTimes ↔
      ¬ ∃ q ∈ acqTimes, |q.2 - t| < oneMinuteUs) := by
  constructor
  · constructor
    · rintro ⟨dest, nn, fp, hev⟩
      obtain ⟨q, hq, hstep⟩ := List.mem_map.mp hev
      have hp : p = q.1 := relocateStep_moved_orig hstep
      have hq2 : (p, q.2) ∈ rrdfTimes := by rw [hp]; exact hq
      have ht : q.2 = t := nodup_key_val_unique hnd hq2 hmem
      rw [← hp, ht] at hstep
      exact (relocateStep_moved_iff acqTimes hne p t).mp ⟨dest, nn, fp, hstep⟩
    · intro hex
      obtain ⟨dest, nn, fp, hstep⟩ := (relocateStep_moved_iff acqTimes hne p t).mpr hex
      exact ⟨dest, nn, fp, List.mem_map.mpr ⟨(p, t), hmem, hstep⟩⟩
  · constructor
    · intro hev
      obtain ⟨q, hq, hstep⟩ := List.mem_map.mp hev
      have hp : p = q.1 := relocateStep_notMoved_orig hstep
      have hq2 : (p, q.2) ∈ rrdfTimes := by rw [hp]; exact hq
      have ht : q.2 = t := nodup_key_val_unique hnd hq2 hmem
      rw [← hp, ht] at hstep
      exact (relocateStep_notMoved_iff acqTimes hne p t).mp hstep
    · intro hnx
      exact List.mem_map.mpr ⟨(p, t), hmem,
        (relocateStep_notMoved_iff acqTimes hne p t).mpr hnx⟩

/-- Witness for C1: a 32-second distance is relocated; its sibling one hour
away is reported not-moved. -/
theorem relocation_iff_within_tolerance_witness :
    ((∃ dest nn fp, RelocEvent.moved "/t/scan.h5" dest nn fp ∈
        relocate_rrdf_files_by_time [("/e/acq1/", 32000000)]
          [("/t/scan.h5", 0), ("/t/far.h5", 3600000000)]) ↔
      ∃ q ∈ [(("/e/acq1/" : String), (32000000 : Int))], |q.2 - 0| < oneMinuteUs) ∧
    (RelocEvent.notMoved "/t/scan.h5" ∈ relocate_rrdf_files_by_time
        [("/e/acq1/", 32000000)] [("/t/scan.h5", 0), ("/t/far.h5", 3600000000)] ↔
      ¬ ∃ q ∈ [(("/e/acq1/" : String), (32000000 : Int))], |q.2 - 0| < oneMinuteUs) :=
  relocation_iff_within_tolerance [("/e/acq1/", 32000000)]
    [("/t/scan.h5", 0), ("/t/far.h5", 3600000000)]
    (by decide) (by decide) "/t/scan.h5" 0 (by decide)

theorem relocateStep_unique_best {acq : List (String × Int)} {f : String} {tf : Int}
    (hf : (f, tf) ∈ acq) (hfne : f ≠ "") (p : String) (t : Int)
    (hu : ∀ q ∈ acq, q.1 ≠ f → |tf - t| < |q.2 - t|)
    (htol : |tf - t| < oneMinuteUs) :
    ∃ nn fp, relocateStep acq p t = .moved p f nn fp := by
  have hle := findBestMatch_le_all (t := t) hf
  rcases findBestMatch_attain acq t with hinit | ⟨q, hq, heq⟩
  · rw [hinit] at hle
    exact absurd (lt_of_le_of_lt hle htol) (lt_asymm oneMinute_lt_oneDay)
  · obtain ⟨q1, q2⟩ := q
    have hqf : q1 = f := by
      by_contra hne2
      have hlt1 := hu (q1, q2) hq hne2
      rw [heq] at hle
      exact absurd (lt_of_lt_of_le hlt1 hle) (lt_irrefl _)
    subst hqf
    have hdlt : |q2 - t| < oneMinuteUs := by
      rw [heq] at hle
      exact lt_of_le_of_lt hle htol
    have hstep : relocateStep acq p t =
        .moved p q1 (pyBasename (pyNormpath q1) ++ ".h5")
          (pyJoin q1 (pyBasename (pyNormpath q1) ++ ".h5")) := by
      simp only [relocateStep, heq]
      rw [if_pos ⟨hfne, hdlt⟩]
    exact ⟨_, _, hstep⟩

/-- C9: matching never shrinks the candidate pool — two distinct raw files
whose strict nearest acquisition folder is the same folder, both within
tolerance, are both relocated into it. -/
theorem shared_best_match_both_relocated (acqTimes rrdfTimes : List (String × Int))
    (p1 p2 f : String) (t1 t2 tf : Int)
    (hm1 : (p1, t1) ∈ rrdfTimes) (hm2 : (p2, t2) ∈ rrdfTimes) (_hpp : p1 ≠ p2)
    (hf : (f, tf) ∈ acqTimes) (hfne : f ≠ "")
    (hu1 : ∀ q ∈ acqTimes, q.1 ≠ f → |tf - t1| < |q.2 - t1|)
    (hu2 : ∀ q ∈ acqTimes, q.1 ≠ f → |tf - t2| < |q.2 - t2|)
    (htol1 : |tf - t1| < oneMinuteUs) (htol2 : |tf - t2| < oneMinuteUs) :
    (∃ nn fp, RelocEvent.moved p1 f nn fp ∈
      relocate_rrdf_files_by_time acqTimes rrdfTimes) ∧
    (∃ nn fp, RelocEvent.moved p2 f nn fp ∈
      relocate_rrdf_files_by_time acqTimes rrdfTimes) := by
  obtain ⟨nn1, fp1, h1⟩ := relocateStep_unique_best hf hfne p1 t1 hu1 htol1
  obtain ⟨nn2, fp2, h2⟩ := relocateStep_unique_best hf hfne p2 t2 hu2 htol2
  exact ⟨⟨nn1, fp1, List.mem_map.mpr ⟨(p1, t1), hm1, h1⟩⟩,
    ⟨nn2, fp2, List.mem_map.mpr ⟨(p2, t2), hm2, h2⟩⟩⟩

/-- Witness for C9: two raw files 10 s and 20 s from the same single folder
are both moved into it. -/
theorem shared_best_match_both_relocated_witness :
    (∃ nn fp, RelocEvent.moved "/t/a.h5" "/e/acq1/" nn fp ∈
      relocate_rrdf_files_by_time [("/e/acq1/", 0)]
        [("/t/a.h5", 10000000), ("/t/b.h5", 20000000)]) ∧
    (∃ nn fp, RelocEvent.moved "/t/b.h5" "/e/acq1/" nn fp ∈
      relocate_rrdf_files_by_time [("/e/acq1/", 0)]
        [("/t/a.h5", 10000000), ("/t/b.h5", 20000000)]) :=
  shared_best_match_both_relocated [("/e/acq1/", 0)]
    [("/t/a.h5", 10000000), ("/t/b.h5", 20000000)]
    "/t/a.h5" "/t/b.h5" "/e/acq1/" 10000000 20000000 0
    (by decide) (by decide) (by decide) (by decide) (by decide)
    (by decide) (by decide) (by decide) (by decide)

/-! ## Claim C8: session-name derivation -/

/-- C8: `find_dicom_session_path`'s name derivation is a total deterministic
function: it succeeds exactly on names containing `rrdf_` + 8 digits + `_` +
6 digits, produces the canonical `YYYY-MM-DD_HH_MM_SS` reformatting of the
captured tokens (`rrdf_20240115_143022` ↦ `2024-01-15_14_30_22`), and on
names lacking the pattern the whole path search returns the `None` failure
marker whatever the directory tree holds. -/
theorem session_name_derivation (name : String) :
    ((deriveSessionName name).isSome = true ↔
      ∃ pre d t rest, d.length = 8 ∧ t.length = 6 ∧ d.all Char.isDigit = true ∧
        t.all Char.isDigit = true ∧
        name.toList = pre ++ (patText ['r', 'r', 'd', 'f', '_'] ['_'] [] d t ++ rest)) ∧
    (∀ s, deriveSessionName name = some s →
      ∃ d t, searchRrdf name.toList = some (d, t) ∧
        s = (String.mk (d.take 4) ++ "-" ++ String.mk ((d.drop 4).take 2)
            ++ "-" ++ String.mk (d.drop 6)) ++ "_"
          ++ (String.mk (t.take 2) ++ "_" ++ String.mk ((t.drop 2).take 2)
            ++ "_" ++ String.mk (t.drop 4))) ∧
    deriveSessionName "rrdf_20240115_143022" = some "2024-01-15_14_30_22" ∧
    (∀ walkEntries, deriveSessionName name = none →
      find_dicom_session_path walkEntries name = none) := by
  refine ⟨⟨?_, ?_⟩, ?_, ?_, ?_⟩
  · intro h
    cases hsr : searchRrdf name.toList with
    | none =>
      have hsrd : searchRrdf name.data = none := hsr
      simp [deriveSessionName, hsr, hsrd] at h
    | some pr =>
      obtain ⟨d, t⟩ := pr
      obtain ⟨h8, h6, hd, ht, pre, rest, hdec⟩ := searchPat_sound hsr
      refine ⟨pre, d, t, rest, h8, h6, hd, ht, ?_⟩
      rw [hdec]
      simp [List.append_assoc]
  · rintro ⟨pre, d, t, rest, h8, h6, hd, ht, hdec⟩
    have hsome := @searchPat_isSome_of_mem
      ['r', 'r', 'd', 'f', '_'] ['_'] [] d t pre rest hd ht
    rw [h8, h6, ← hdec] at hsome
    have hsome2 : (searchRrdf name.toList).isSome = true := hsome
    cases hsr : searchRrdf name.toList with
    | none => rw [hsr] at hsome2; simp at hsome2
    | some pr =>
      have hsrd : searchRrdf name.data = some pr := hsr
      simp [deriveSessionName, hsr, hsrd]
  · intro s hs
    cases hsr : searchRrdf name.toList with
    | none =>
      have hsrd : searchRrdf name.data = none := hsr
      simp [deriveSessionName, hsr, hsrd] at hs
    | some pr =>
      obtain ⟨d, t⟩ := pr
      have hsrd : searchRrdf name.data = some (d, t) := hsr
      simp only [deriveSessionName, hsr, hsrd, Option.some.injEq] at hs
      exact ⟨d, t, rfl, hs.symm⟩
  · rfl
  · intro walkEntries h
    simp [find_dicom_session_path, h]

/-- Witness for C8 at the spec's example exam-folder name. -/
theorem session_name_derivation_witness :
    deriveSessionName "rrdf_20240115_143022" = some "2024-01-15_14_30_22" :=
  (session_name_derivation "rrdf_20240115_143022").2.2.1

/-! ## Claim C2: a timestamp parse failure aborts the whole parse

`parse_rrdf_timestamps` has no try/except: when the `\d{8}`/`\d{6}` groups of
a matching filename do not form a valid calendar date/time, `strptime` raises
and the exception escapes the function (and the run). -/

/-- Counterexample to C2 as stated: a month-13 filename makes the whole call
raise; the valid second file is never indexed and nothing is logged-and-
continued. -/
theorem rrdf_parse_failure_counterexample :
    parse_rrdf_timestamps "/tmp/rrdf_download"
        ["scan_20241315_143022.h5", "ok_20240101_120000.h5"] =
      .error "ValueError: time data 20241315143022 does not match format %Y%m%d%H%M%S" :=
  rfl

/-- C2 amended: a per-file timestamp parse failure (pattern-matching filename
with digits that are not a valid date/time) raises an uncaught `ValueError`
that aborts indexing — the remaining files are not processed. -/
theorem rrdf_parse_failure_aborts (dir : String) (names : List String)
    (hns : ∀ n ∈ names, n.toList.all (fun c => c != '/') = true)
    (n : String) (hn : n ∈ names) (hg : globH5 n = true)
    (d t : List Char) (hs : searchTs n.toList = some (d, t))
    (hp : strptime14 d t = none) :
    ∃ e, parse_rrdf_timestamps dir names = .error e := by
  apply foldSteps_err
  refine ⟨n, hn, ?_⟩
  have hbn : pyBasename (pyJoin dir n) = n := pyBasename_pyJoin (hns n hn)
  have hsd : searchTs n.data = some (d, t) := hs
  refine ⟨"ValueError: time data " ++ String.mk (d ++ t)
    ++ " does not match format %Y%m%d%H%M%S", ?_⟩
  simp [rrdfClassify, hg, hbn, hs, hsd, hp]

/-- Witness for the amended C2. -/
theorem rrdf_parse_failure_aborts_witness :
    ∃ e, parse_rrdf_timestamps "/tmp/rrdf_download"
      ["scan_20241315_143022.h5", "ok_20240101_120000.h5"] = .error e :=
  rrdf_parse_failure_aborts "/tmp/rrdf_download"
    ["scan_20241315_143022.h5", "ok_20240101_120000.h5"] (by decide)
    "scan_20241315_143022.h5" (by decide) (by decide)
    ['2', '0', '2', '4', '1', '3', '1', '5'] ['1', '4', '3', '0', '2', '2']
    (by decide) (by decide)

/-! ## Claim C3: what the raw-file index contains -/

/-- The spec's anchored pattern, written from the spec's words: the filename
matches `_\d{8}_\d{6}\.h5` anchored at the very end of the name. -/
def specAnchoredTsMatch (name : String) : Bool :=
  match name.toList.reverse with
  | '5' :: 'h' :: '.' :: rest =>
    match takeDigits 6 rest with
    | some (_, '_' :: rest2) =>
      match takeDigits 8 rest2 with
      | some (_, '_' :: _) => true
      | _ => false
    | _ => false
  | _ => false

/-- What one directory entry contributes to the raw-file index (explicit form
of the loop body's insertion, used to state the index's contents). -/
def rrdfEntryOf (dir n : String) : Option (String × Datetime) :=
  if globH5 n then
    match searchTs n.toList with
    | some (d, t) => (strptime14 d t).map (fun dt => (pyJoin dir n, dt))
    | none => none
  else none

/-- The raw-file index in explicit form. -/
def rrdfIndexExplicit (dir : String) (names : List String) : List (String × Datetime) :=
  names.filterMap (rrdfEntryOf dir)

/-- Counterexample to C3 as stated: the code searches the pattern unanchored,
so a `.h5` file whose timestamp block sits mid-name — rejected by the spec's
anchored pattern — is still indexed, with the leftmost occurrence's value. -/
theorem rrdf_index_unanchored_counterexample :
    specAnchoredTsMatch "a_20240115_143022.h5_x.h5" = false ∧
    parse_rrdf_timestamps "/tmp/rrdf_download" ["a_20240115_143022.h5_x.h5"] =
      .ok [("/tmp/rrdf_download/a_20240115_143022.h5_x.h5",
        { year := 2024, month := 1, day := 15, hour := 14, minute := 30, second := 22 })] :=
  ⟨rfl, rfl⟩

theorem filterMap_congr_mem {α β : Type} {l : List α} {f g : α → Option β}
    (h : ∀ x ∈ l, f x = g x) : l.filterMap f = l.filterMap g := by
  induction l with
  | nil => rfl
  | cons a tl ih =>
    simp only [List.filterMap_cons, h a (by simp)]
    rw [ih (fun x hx => h x (by simp [hx]))]

theorem nodup_filterMap_mem_inj {α β : Type} {l : List α} {f : α → Option β}
    (hnd : l.Nodup)
    (hinj : ∀ a ∈ l, ∀ b ∈ l, ∀ c, f a = some c → f b = some c → a = b) :
    (l.filterMap f).Nodup := by
  induction l with
  | nil => simp
  | cons a tl ih =>
    rw [List.filterMap_cons]
    rcases List.nodup_cons.mp hnd with ⟨hna, hndtl⟩
    have ihtl := ih hndtl
      (fun x hx y hy c h1 h2 => hinj x (by simp [hx]) y (by simp [hy]) c h1 h2)
    cases hfa : f a with
    | none => exact ihtl
    | some c =>
      rw [List.nodup_cons]
      refine ⟨?_, ihtl⟩
      intro hc
      obtain ⟨b, hb, hfb⟩ := List.mem_filterMap.mp hc
      have hab : a = b := hinj a (by simp) b (by simp [hb]) c hfa hfb
      rw [hab] at hna
      exact hna hb

theorem pyJoin_name_inj {dir n1 n2 : String}
    (h1 : n1.toList.all (fun c => c != '/') = true)
    (h2 : n2.toList.all (fun c => c != '/') = true)
    (h : pyJoin dir n1 = pyJoin dir n2) : n1 = n2 := by
  have e1 := pyBasename_pyJoin (a := dir) h1
  have e2 := pyBasename_pyJoin (a := dir) h2
  rw [← e1, ← e2, h]

theorem rrdfClassify_eq {dir n : String} (h : n.toList.all (fun c => c != '/') = true) :
    rrdfClassify dir n =
      (if globH5 n then
        match searchTs n.toList with
        | some (d, t) =>
          match strptime14 d t with
          | some dt => SyncAct.ins (pyJoin dir n) dt
          | none => SyncAct.err ("ValueError: time data " ++ String.mk (d ++ t)
              ++ " does not match format %Y%m%d%H%M%S")
        | none => SyncAct.skip
      else SyncAct.skip) := by
  simp only [rrdfClassify, pyBasename_pyJoin h]

theorem actEntry_rrdfClassify {dir n : String}
    (h : n.toList.all (fun c => c != '/') = true) :
    actEntry? (rrdfClassify dir n) = rrdfEntryOf dir n := by
  rw [rrdfClassify_eq h]
  unfold rrdfEntryOf
  cases hg : globH5 n with
  | false => simp [hg, actEntry?]
  | true =>
    cases hsr : searchTs n.toList with
    | none => simp [hg, hsr, actEntry?]
    | some pr =>
      obtain ⟨d0, t0⟩ := pr
      cases hst : strptime14 d0 t0 with
      | none => simp [hg, hsr, hst, actEntry?]
      | some dt0 => simp [hg, hsr, hst, actEntry?]

theorem rrdfClassify_noerr {dir n : String}
    (h : n.toList.all (fun c => c != '/') = true)
    (hok : globH5 n = true → ∀ d t, searchTs n.toList = some (d, t) →
      (strptime14 d t).isSome = true) :
    ∀ e, rrdfClassify dir n ≠ .err e := by
  intro e
  rw [rrdfClassify_eq h]
  cases hg : globH5 n with
  | false => simp
  | true =>
    cases hsr : searchTs n.toList with
    | none => simp [hsr]
    | some pr =>
      obtain ⟨d0, t0⟩ := pr
      have hsome := hok hg d0 t0 hsr
      cases hst : strptime14 d0 t0 with
      | none => rw [hst] at hsome; simp at hsome
      | some dt0 => simp [hsr, hst]

theorem rrdfEntry_some_iff {dir n : String} {p : String} {dt : Datetime} :
    rrdfEntryOf dir n = some (p, dt) ↔
      globH5 n = true ∧ p = pyJoin dir n ∧
        ∃ d t, searchTs n.toList = some (d, t) ∧ strptime14 d t = some dt := by
  unfold rrdfEntryOf
  cases hg : globH5 n with
  | false => simp [hg]
  | true =>
    cases hsr : searchTs n.toList with
    | none => simp [hg, hsr]
    | some pr =>
      obtain ⟨d0, t0⟩ := pr
      cases hst : strptime14 d0 t0 with
      | none =>
        simp only [hg, if_true, hst, Option.map_none', Option.some.injEq, Prod.mk.injEq]
        constructor
        · intro hfalse; exact absurd hfalse (by simp)
        · rintro ⟨-, -, d, t, hdt, hstdt⟩
          rw [← hdt.1, ← hdt.2, hst] at hstdt
          exact absurd hstdt (by simp)
      | some dt0 =>
        simp only [hg, if_true, hst, Option.map_some', Option.some.injEq, Prod.mk.injEq]
        constructor
        · rintro ⟨hp, hdt⟩
          exact ⟨trivial, hp.symm, d0, t0, ⟨rfl, rfl⟩, by rw [hst, hdt]⟩
        · rintro ⟨-, hp, d, t, hdt, hstdt⟩
          rw [← hdt.1, ← hdt.2, hst] at hstdt
          simp only [Option.some.injEq] at hstdt
          exact ⟨hp.symm, hstdt⟩

/-- C3 amended: the raw-file index holds exactly the `*.h5`-globbed entries
whose filename contains `_\d{8}_\d{6}\.h5` **anywhere** (the code searches the
pattern unanchored; the leftmost occurrence is captured), each mapped to the
timestamp parsed from the captured tokens; every other filename is excluded
silently, with no error. -/
theorem rrdf_index_characterization (dir : String) (names : List String)
    (hns : ∀ n ∈ names, n.toList.all (fun c => c != '/') = true)
    (hnd : names.Nodup)
    (hok : ∀ n ∈ names, globH5 n = true → ∀ d t, searchTs n.toList = some (d, t) →
      (strptime14 d t).isSome = true) :
    parse_rrdf_timestamps dir names = .ok (rrdfIndexExplicit dir names) ∧
    ∀ p dt, ((p, dt) ∈ rrdfIndexExplicit dir names ↔
      ∃ n ∈ names, globH5 n = true ∧ p = pyJoin dir n ∧
        ∃ d t, searchTs n.toList = some (d, t) ∧ strptime14 d t = some dt) := by
  have hcongr : ∀ n ∈ names, actEntry? (rrdfClassify dir n) = rrdfEntryOf dir n :=
    fun n hn => actEntry_rrdfClassify (hns n hn)
  constructor
  · have hkeyeq : insKeys (rrdfClassify dir) names =
        names.filterMap (fun n => (rrdfEntryOf dir n).map Prod.fst) := by
      unfold insKeys
      exact filterMap_congr_mem (fun n hn => by rw [hcongr n hn])
    have hkeynd : (insKeys (rrdfClassify dir) names).Nodup := by
      rw [hkeyeq]
      apply nodup_filterMap_mem_inj hnd
      intro a ha b hb c h1 h2
      cases hea : rrdfEntryOf dir a with
      | none => rw [hea] at h1; simp at h1
      | some pa =>
        cases heb : rrdfEntryOf dir b with
        | none => rw [heb] at h2; simp at h2
        | some pb =>
          obtain ⟨pa1, pa2⟩ := pa
          obtain ⟨pb1, pb2⟩ := pb
          rw [hea] at h1
          rw [heb] at h2
          simp only [Option.map_some', Option.some.injEq] at h1 h2
          have hka : c = pyJoin dir a := by
            rw [← h1]
            exact (rrdfEntry_some_iff.mp hea).2.1
          have hkb : c = pyJoin dir b := by
            rw [← h2]
            exact (rrdfEntry_some_iff.mp heb).2.1
          exact pyJoin_name_inj (hns a ha) (hns b hb) (by rw [← hka, ← hkb])
    have hfold := foldSteps_ok (rrdfClassify dir) names
      (fun n hn e => rrdfClassify_noerr (hns n hn) (hok n hn) e) hkeynd
    rw [filterMap_congr_mem hcongr] at hfold
    exact hfold
  · intro p dt
    unfold rrdfIndexExplicit
    rw [List.mem_filterMap]
    constructor
    · rintro ⟨n, hn, he⟩
      exact ⟨n, hn, rrdfEntry_some_iff.mp he⟩
    · rintro ⟨n, hn, hc⟩
      exact ⟨n, hn, rrdfEntry_some_iff.mpr hc⟩

/-- Witness for the amended C3 on a one-file directory. -/
theorem rrdf_index_characterization_witness :
    parse_rrdf_timestamps "/tmp/rrdf_download" ["scan_20240115_143022.h5"] =
      .ok (rrdfIndexExplicit "/tmp/rrdf_download" ["scan_20240115_143022.h5"]) :=
  (rrdf_index_characterization "/tmp/rrdf_download" ["scan_20240115_143022.h5"]
    (by decide) (by decide)
    (by
      intro n hn hg d t hs
      have hn2 : n = "scan_20240115_143022.h5" := by simpa using hn
      subst hn2
      have hval : searchTs "scan_20240115_143022.h5".toList =
          some (['2', '0', '2', '4', '0', '1', '1', '5'],
            ['1', '4', '3', '0', '2', '2']) := by decide
      rw [hval] at hs
      simp only [Option.some.injEq, Prod.mk.injEq] at hs
      rw [← hs.1, ← hs.2]
      decide)).1

/-! ## Claim C7: the most recent exam folder -/

/-- The entry one listing line contributes when its fields are well-formed
(explicit form of the loop body of `get_latest_exam_folder`): name = last
field, timestamp parsed from fields 5 and 6 with the fraction stripped. -/
def lineEntry? (line : String) : Option (String × Datetime) :=
  let finfo := pySplitWs line
  if finfo.length < 7 then none
  else
    (strptimeDash (finfo.getD 5 "")
      (String.mk ((finfo.getD 6 "").toList.takeWhile (fun c => c != '.')))).map
      (fun dt => (finfo.getLastD "", dt))

/-- The entry a line contributes to the exam dict: only `rrdf_` lines count. -/
def qualEntry? (line : String) : Option (String × Datetime) :=
  if lineQualifies line then lineEntry? line else none

theorem examClassify_skip_of {line : String} (hq : lineQualifies line = false) :
    examClassify line = .skip := by
  simp [examClassify, hq]

theorem examClassify_ins_of {line : String} {k : String} {dt : Datetime}
    (hq : lineQualifies line = true) (he : lineEntry? line = some (k, dt)) :
    examClassify line = .ins k dt := by
  simp only [lineEntry?] at he
  split at he
  case isTrue => simp at he
  case isFalse hlen =>
    cases hst : strptimeDash ((pySplitWs line).getD 5 "")
        (String.mk (((pySplitWs line).getD 6 "").toList.takeWhile (fun c => c != '.'))) with
    | none => rw [hst] at he; simp at he
    | some dt0 =>
      rw [hst] at he
      simp only [Option.map_some', Option.some.injEq, Prod.mk.injEq] at he
      obtain ⟨hk, hdt⟩ := he
      subst hk; subst hdt
      have hst2 := hst
      simp only [List.getD_eq_getElem?_getD] at hst2
      have hst3 : strptimeDash ((pySplitWs line)[5]?.getD "")
          (String.mk (List.takeWhile (fun c => c != '.')
            ((pySplitWs line)[6]?.getD "").data)) = some dt0 := hst2
      simp [examClassify, hq, hst, hst2, hst3, hlen]

theorem actEntry_examClassify (line : String)
    (hwfl : lineQualifies line = true → (lineEntry? line).isSome = true) :
    actEntry? (examClassify line) = qualEntry? line := by
  cases hq : lineQualifies line with
  | false => rw [examClassify_skip_of hq]; simp [actEntry?, qualEntry?, hq]
  | true =>
    obtain ⟨⟨k, dt⟩, he⟩ := Option.isSome_iff_exists.mp (hwfl hq)
    rw [examClassify_ins_of hq he]
    simp [actEntry?, qualEntry?, hq, he]

/-- C7: on a well-formed listing (every `rrdf_` line parses, entry names
distinct), `get_latest_exam_folder` returns without raising; the result is
`None` exactly when no line qualifies, and otherwise it is the name of a
qualifying line whose parsed modification timestamp is maximal over all
qualifying lines. -/
theorem latest_exam_folder_max (lines : List String)
    (hwf : ∀ l ∈ lines, lineQualifies l = true → (lineEntry? l).isSome = true)
    (hnd : (lines.filterMap (fun l => (qualEntry? l).map Prod.fst)).Nodup) :
    ∃ r, get_latest_exam_folder lines = .ok r ∧
      ((r = none) ↔ ∀ l ∈ lines, lineQualifies l = false) ∧
      (∀ nm, r = some nm →
        ∃ l ∈ lines, ∃ dt, qualEntry? l = some (nm, dt) ∧
          ∀ l2 ∈ lines, ∀ nm2 dt2, qualEntry? l2 = some (nm2, dt2) →
            dtKey dt2 ≤ dtKey dt) := by
  have hcongr : ∀ l ∈ lines, actEntry? (examClassify l) = qualEntry? l :=
    fun l hl => actEntry_examClassify l (hwf l hl)
  have hnoerr : ∀ l ∈ lines, ∀ e, examClassify l ≠ .err e := by
    intro l hl e
    cases hq : lineQualifies l with
    | false => rw [examClassify_skip_of hq]; simp
    | true =>
      obtain ⟨⟨k, dt⟩, he⟩ := Option.isSome_iff_exists.mp (hwf l hl hq)
      rw [examClassify_ins_of hq he]
      simp
  have hkeyeq : insKeys examClassify lines =
      lines.filterMap (fun l => (qualEntry? l).map Prod.fst) := by
    unfold insKeys
    exact filterMap_congr_mem (fun l hl => by rw [hcongr l hl])
  have hfold := foldSteps_ok examClassify lines hnoerr (by rw [hkeyeq]; exact hnd)
  rw [filterMap_congr_mem hcongr] at hfold
  refine ⟨dictMaxKeyByVal (lines.filterMap qualEntry?), ?_, ?_, ?_⟩
  · simp [get_latest_exam_folder, hfold]
  · rw [dictMaxKeyByVal_none_iff]
    constructor
    · intro hdempty l hl
      by_contra hq
      have hqt : lineQualifies l = true := by
        cases hqv : lineQualifies l with
        | false => exact absurd hqv hq
        | true => rfl
      obtain ⟨⟨k, dt⟩, he⟩ := Option.isSome_iff_exists.mp (hwf l hl hqt)
      have hmem : (k, dt) ∈ lines.filterMap qualEntry? :=
        List.mem_filterMap.mpr ⟨l, hl, by simp [qualEntry?, hqt, he]⟩
      rw [hdempty] at hmem
      simp at hmem
    · intro hall
      apply List.filterMap_eq_nil_iff.mpr
      intro l hl
      simp [qualEntry?, hall l hl]
  · intro nm hnm
    obtain ⟨v, hv, hmax⟩ := dictMaxKeyByVal_spec hnm
    obtain ⟨l, hl, hql⟩ := List.mem_filterMap.mp hv
    refine ⟨l, hl, v, hql, ?_⟩
    intro l2 hl2 nm2 dt2 hq2
    exact hmax (nm2, dt2) (List.mem_filterMap.mpr ⟨l2, hl2, hq2⟩)

/-- Witness for C7 on a three-line listing with one header and two exams. -/
theorem latest_exam_folder_max_witness :
    ∃ r, get_latest_exam_folder ["total 1",
        "a b c d e 2024-01-15 14:30:22.5 rrdf_20240115_143022",
        "a b c d e 2024-02-20 09:00:00.1 rrdf_20240220_090000"] = .ok r ∧
      ((r = none) ↔ ∀ l ∈ ["total 1",
        "a b c d e 2024-01-15 14:30:22.5 rrdf_20240115_143022",
        "a b c d e 2024-02-20 09:00:00.1 rrdf_20240220_090000"],
          lineQualifies l = false) ∧
      (∀ nm, r = some nm →
        ∃ l ∈ ["total 1",
          "a b c d e 2024-01-15 14:30:22.5 rrdf_20240115_143022",
          "a b c d e 2024-02-20 09:00:00.1 rrdf_20240220_090000"], ∃ dt,
            qualEntry? l = some (nm, dt) ∧
            ∀ l2 ∈ ["total 1",
              "a b c d e 2024-01-15 14:30:22.5 rrdf_20240115_143022",
              "a b c d e 2024-02-20 09:00:00.1 rrdf_20240220_090000"],
              ∀ nm2 dt2, qualEntry? l2 = some (nm2, dt2) → dtKey dt2 ≤ dtKey dt) :=
  latest_exam_folder_max ["total 1",
      "a b c d e 2024-01-15 14:30:22.5 rrdf_20240115_143022",
      "a b c d e 2024-02-20 09:00:00.1 rrdf_20240220_090000"]
    (by decide) (by decide)

end RrdfSync
